import Mathlib

/-
  Verification development for the GitHub commit-monitor plugin
  (src/main.py, src/services/github_service.py, src/services/notification_service.py).

  Shallow embedding conventions:
  * Remote API behaviour is a deterministic `World`: `repoInfo owner repo` models the
    outcome of `GET /repos/{owner}/{repo}` and `commitAt owner repo ref` models the
    commit returned by `GET /repos/{owner}/{repo}/commits/{ref}` (None on any error).
  * Python exceptions that escape a function are modelled with `Except PyError` or an
    `aborted` field; exceptions that the source catches are folded into `Option`.
  * `get_repository_info`-specific detail: its `except httpx.HTTPError` handler reads
    the local variable `response`, which is unbound when the request itself failed at
    transport level (httpx transport errors are HTTPError subclasses), so that path
    raises UnboundLocalError out of the function instead of returning None.  The
    `World` therefore distinguishes `ok`, `httpStatusError` (response received, bad
    status, handler works, returns None) and `transportError` (handler itself raises).
  * Python truthiness of an optional string (`if not branch`, `if not owner`) is
    `pyTruthy`; Python string interpolation of a possibly-None value is `pyStr`.
-/

/-- CommitSnapshot as built by `get_latest_commit` (sha, message, author, date, url). -/
structure Commit where
  sha : String
  message : String
  author : String
  date : String
  url : String
deriving DecidableEq

/-- Repository metadata fields the plugin reads from the `GET /repos/{o}/{r}` JSON:
`owner.login`, `name`, `html_url`, `default_branch`.  The real API always includes
these keys, so they are plain fields here. -/
structure RepoInfo where
  owner_login : String
  name : String
  html_url : String
  default_branch : String
deriving DecidableEq

/-- Outcome of a `GET /repos/{owner}/{repo}` request as seen by `get_repository_info`. -/
inductive RepoInfoResult where
  | ok (ri : RepoInfo)
  | httpStatusError
  | transportError
deriving DecidableEq

/-- Python exceptions that escape the modelled functions. -/
inductive PyError where
  | valueError
  | unboundLocalError
deriving DecidableEq

/-- Outbound network requests, for frame conditions. -/
inductive NetCall where
  | repoInfo (owner repo : String)
  | commits (owner repo branch : String)
deriving DecidableEq

/-- One element of the configured `repositories` list: a `"owner/name"` string, a dict
with optional `owner` / `repo` / `branch` keys, or anything else (skipped). -/
inductive RepoConfig where
  | str (s : String)
  | dict (owner repo branch : Option String)
  | other
deriving DecidableEq

/-- Deterministic model of the remote API for one cycle. -/
structure World where
  repoInfo : String → String → RepoInfoResult
  commitAt : String → String → String → Option Commit

/-- The persisted commit data: key `owner/repo/branch` to last stored snapshot. -/
def TrackedState : Type := String → Option Commit

/-- Python dict assignment `commit_data[repo_key] = new_commit`. -/
def update (s : TrackedState) (k : String) (v : Commit) : TrackedState :=
  fun k2 => if k2 = k then some v else s k2

def emptyState : TrackedState := fun _ => none

/-- Python truthiness of an optional string (None and the empty string are falsy). -/
def pyTruthy (o : Option String) : Bool :=
  match o with
  | none => false
  | some s => !s.isEmpty

/-- Python f-string interpolation of an optional string: `f"{None}"` is `"None"`. -/
def pyStr (o : Option String) : String :=
  match o with
  | none => "None"
  | some s => s

/-- Python `s.split("/", 1)` viewed through 2-tuple unpacking: `some (before, after)`
when the string contains a separator, `none` when it does not (unpacking a 1-element
list raises ValueError). -/
def splitFirst : List Char → Option (List Char × List Char)
  | [] => none
  | c :: cs =>
    if c = '/' then some ([], cs)
    else (splitFirst cs).map (fun p => (c :: p.1, p.2))

/-- Lines 97-110 of main.py: turn one configured entry into `(owner, repo, branch)`.
`.error` models the uncaught ValueError from unpacking `split("/", 1)` of a string
without a separator; `.ok none` models the `continue` branches (non-str/dict entry,
falsy owner or repo). -/
def parseRepoConfig (rc : RepoConfig) : Except PyError (Option (String × String × Option String)) :=
  match rc with
  | .str s =>
    match splitFirst s.data with
    | none => .error .valueError
    | some (o, r) =>
      let owner : String := ⟨o⟩
      let repo : String := ⟨r⟩
      if pyTruthy (some owner) && pyTruthy (some repo) then .ok (some (owner, repo, none))
      else .ok none
  | .dict o r b =>
    if pyTruthy o && pyTruthy r then .ok (some (o.getD "", r.getD "", b))
    else .ok none
  | .other => .ok none

/-- Line 122 of main.py: `not old_commit or old_commit.get("sha") != new_commit["sha"]`. -/
def mismatchB (old : Option Commit) (newSha : String) : Bool :=
  old.isNone || (old.map Commit.sha != some newSha)

/-- The value `get_repository_info` hands back when it does not raise. -/
def riOptOf (x : RepoInfoResult) : Option RepoInfo :=
  match x with
  | .ok ri => some ri
  | _ => none

/-- github_service.get_repository_info: returns the parsed JSON on success, None after
a status error (handler logs and returns), and raises UnboundLocalError from inside
the HTTPError handler when the request failed at transport level. -/
def get_repository_info (w : World) (owner repo : String) : Except PyError (Option RepoInfo) :=
  match w.repoInfo owner repo with
  | .ok ri => .ok (some ri)
  | .httpStatusError => .ok none
  | .transportError => .error .unboundLocalError

/-- github_service.get_latest_commit.  With a falsy branch it first resolves the
default branch via `get_repository_info`; if that returns None it only logs and falls
through, so the commit request is issued at `f"...commits/{branch}"` with the original
falsy value (interpolating as `"None"` for None); if it raises, the outer
`except Exception` returns None before any commit request.  Second component: the
requests issued. -/
def get_latest_commit (w : World) (owner repo : String) (branch : Option String) :
    Option Commit × List NetCall :=
  if pyTruthy branch then
    (w.commitAt owner repo (pyStr branch), [NetCall.commits owner repo (pyStr branch)])
  else
    match w.repoInfo owner repo with
    | .ok ri =>
      (w.commitAt owner repo ri.default_branch,
        [NetCall.repoInfo owner repo, NetCall.commits owner repo ri.default_branch])
    | .httpStatusError =>
      (w.commitAt owner repo (pyStr branch),
        [NetCall.repoInfo owner repo, NetCall.commits owner repo (pyStr branch)])
    | .transportError => (none, [NetCall.repoInfo owner repo])

/-- Lines 116-119 of main.py: `default_branch` from the metadata (falling back to
`"main"` when it is unavailable), `actual_branch`, and the state key. -/
def keyFor (owner repo : String) (branch : Option String) (riO : Option RepoInfo) : String :=
  let default_branch :=
    match riO with
    | some ri => ri.default_branch
    | none => "main"
  let actual_branch := if pyTruthy branch then branch.getD "" else default_branch
  owner ++ "/" ++ repo ++ "/" ++ actual_branch

/-- Arguments of one `send_commit_notification` invocation made by the cycle. -/
structure NotifyCall where
  ri : RepoInfo
  newC : Commit
  oldC : Option Commit
  targets : List String
deriving DecidableEq

/-- Result of processing a prefix of the configured repositories: final in-memory
commit data, the successive saved documents, the notifier invocations, the network
requests, and the exception (if one) that aborted the loop. -/
structure StepResult where
  st : TrackedState
  saves : List TrackedState
  notifs : List NotifyCall
  calls : List NetCall
  aborted : Option PyError

/-- Lines 116-140 of main.py, after a commit was fetched and the metadata request did
not raise: build the key, compare shas, and on change refetch metadata if it was
falsy (deterministic, so the refetch yields the same value; a transport error cannot
occur here because the first metadata call would already have raised), notify if
metadata and targets are truthy, then write and save.  `calls` holds only the refetch. -/
def detectAndUpdate (w : World) (targets : List String) (owner repo : String)
    (branch : Option String) (newC : Commit) (riO : Option RepoInfo) (s : TrackedState) :
    StepResult :=
  let repo_key := keyFor owner repo branch riO
  let old := s repo_key
  if mismatchB old newC.sha then
    let refetch : Option RepoInfo × List NetCall :=
      if riO.isSome then (riO, [])
      else (riOptOf (w.repoInfo owner repo), [NetCall.repoInfo owner repo])
    let notifs :=
      match refetch.1 with
      | some ri => if targets.isEmpty then [] else [⟨ri, newC, old, targets⟩]
      | none => []
    let s2 := update s repo_key newC
    ⟨s2, [s2], notifs, refetch.2, none⟩
  else ⟨s, [], [], [], none⟩

/-- One iteration of the `for repo_config in repositories` loop (lines 97-140). -/
def processOne (w : World) (targets : List String) (s : TrackedState) (rc : RepoConfig) :
    StepResult :=
  match parseRepoConfig rc with
  | .error e => ⟨s, [], [], [], some e⟩
  | .ok none => ⟨s, [], [], [], none⟩
  | .ok (some (owner, repo, branch)) =>
    let fc := get_latest_commit w owner repo branch
    match fc.1 with
    | none => ⟨s, [], [], fc.2, none⟩
    | some newC =>
      match get_repository_info w owner repo with
      | .error e => ⟨s, [], [], fc.2 ++ [NetCall.repoInfo owner repo], some e⟩
      | .ok riO =>
        let d := detectAndUpdate w targets owner repo branch newC riO s
        ⟨d.st, d.saves, d.notifs, fc.2 ++ [NetCall.repoInfo owner repo] ++ d.calls, none⟩

/-- The repository loop of `_check_repositories`: entries in order, stopping when an
uncaught exception escapes an iteration. -/
def runCycle (w : World) (targets : List String) (repos : List RepoConfig) (s : TrackedState) :
    StepResult :=
  match repos with
  | [] => ⟨s, [], [], [], none⟩
  | rc :: rest =>
    let r1 := processOne w targets s rc
    match r1.aborted with
    | some e => ⟨r1.st, r1.saves, r1.notifs, r1.calls, some e⟩
    | none =>
      let r2 := runCycle w targets rest r1.st
      ⟨r2.st, r1.saves ++ r2.saves, r1.notifs ++ r2.notifs, r1.calls ++ r2.calls, r2.aborted⟩

/-- Plugin configuration fields used by `_check_repositories`. -/
structure Config where
  repositories : List RepoConfig
  notification_targets : List String

/-- main._check_repositories: returns immediately when no repositories are configured
(before even loading the data file), otherwise runs the loop from the loaded state. -/
def check_repositories (w : World) (cfg : Config) (s : TrackedState) : StepResult :=
  if cfg.repositories.isEmpty then ⟨s, [], [], [], none⟩
  else runCycle w cfg.notification_targets cfg.repositories s

/-- Python string slicing `s[:n]`, which counts code points. -/
def pySlice (s : String) (n : Nat) : String := ⟨s.data.take n⟩

/-- Python `len` on a string, which counts code points. -/
def pyLen (s : String) : Nat := s.data.length

/-- notification_service._format_commit_message, byte for byte. -/
def format_commit_message (repo_info : RepoInfo) (new_commit : Commit)
    (old_commit : Option Commit) : String :=
  let repo_name := repo_info.owner_login ++ "/" ++ repo_info.name
  let message := "🔔 GitHub仓库更新通知\n\n"
  let message := message ++ "📁 仓库: " ++ repo_name ++ "\n"
  let message := message ++ "🔗 链接: " ++ repo_info.html_url ++ "\n\n"
  let message := message ++ "✨ 新Commit:\n"
  let message := message ++ "📝 SHA: " ++ pySlice new_commit.sha 7 ++ "\n"
  let message := message ++ "👤 作者: " ++ new_commit.author ++ "\n"
  let message := message ++ "📅 时间: " ++ new_commit.date ++ "\n"
  let message := message ++ "💬 信息: " ++ pySlice new_commit.message 50
      ++ (if pyLen new_commit.message > 50 then "..." else "") ++ "\n"
  let message := message ++ "🔗 链接: " ++ new_commit.url ++ "\n\n"
  match old_commit with
  | some old => message ++ "📜 之前Commit: " ++ pySlice old.sha 7 ++ "\n"
  | none => message

/-- Result of one `_send_private_message` call: the function catches every exception,
so it always returns one of these (a success or failure dict in the source). -/
inductive SendOutcome where
  | delivered (user_id : Int)
  | botMissing (user_id : Int)
  | failed (user_id : Int) (err : String)
deriving DecidableEq

/-- Environment of the notification service: whether a bot instance was captured, and
the outcome of the underlying `send_private_msg` API action. -/
structure NotifEnv where
  botAvailable : Bool
  callAction : Int → String → Except String Unit

/-- Python `int(target)`: partial, raising ValueError on non-numeric strings; only its
partiality matters here. -/
def pyInt (s : String) : Option Int := s.toInt?

/-- notification_service._send_private_message: looks up the plugin and its captured
bot instance, returns a failure dict when missing, calls the API and catches any
exception into a failure dict.  Never raises. -/
def send_private_message (env : NotifEnv) (user_id : Int) (message : String) : SendOutcome :=
  if !env.botAvailable then .botMissing user_id
  else
    match env.callAction user_id message with
    | .ok _ => .delivered user_id
    | .error e => .failed user_id e

/-- The `for target in targets` loop inside `send_commit_notification`.  `int(target)`
raising is caught by the enclosing `try` of the caller, which swallows the error and
stops the loop: no further target is attempted. -/
def sendLoop (env : NotifEnv) (message : String) : List String → List SendOutcome
  | [] => []
  | tg :: rest =>
    match pyInt tg with
    | none => []
    | some uid => send_private_message env uid message :: sendLoop env message rest

/-- notification_service.send_commit_notification: format once, then deliver to each
target; the outer `except Exception` means the function itself never raises. -/
def send_commit_notification (env : NotifEnv) (repo_info : RepoInfo) (new_commit : Commit)
    (old_commit : Option Commit) (targets : List String) : List SendOutcome :=
  sendLoop env (format_commit_message repo_info new_commit old_commit) targets

/-- One configured entry that reaches the sha comparison in a cycle: it parsed, its
commit fetch succeeded, and the metadata request did not raise.  `ri` is the metadata
as the loop sees it (`none` after a status error). -/
structure EffEntry where
  owner : String
  repo : String
  branch : Option String
  newC : Commit
  ri : Option RepoInfo
deriving DecidableEq

/-- State key of an effective entry (the `repo_key` of lines 116-119). -/
def keyOf (e : EffEntry) : String := keyFor e.owner e.repo e.branch e.ri

/-- Detection step of an effective entry. -/
def effStep (w : World) (targets : List String) (s : TrackedState) (e : EffEntry) : StepResult :=
  detectAndUpdate w targets e.owner e.repo e.branch e.newC e.ri s

/-- State, saves and notifications of a run over effective entries. -/
structure EffResult where
  st : TrackedState
  saves : List TrackedState
  notifs : List NotifyCall

def runEff (w : World) (targets : List String) : List EffEntry → TrackedState → EffResult
  | [], s => ⟨s, [], []⟩
  | e :: rest, s =>
    let r1 := effStep w targets s e
    let r2 := runEff w targets rest r1.st
    ⟨r2.st, r1.saves ++ r2.saves, r1.notifs ++ r2.notifs⟩

/-- The effective entries of a cycle, in processing order, truncated at the first
aborting entry.  This list does not depend on the tracked state. -/
def effAux (w : World) : List RepoConfig → List EffEntry
  | [] => []
  | rc :: rest =>
    match parseRepoConfig rc with
    | .error _ => []
    | .ok none => effAux w rest
    | .ok (some (o, r, b)) =>
      match (get_latest_commit w o r b).1 with
      | none => effAux w rest
      | some c =>
        match w.repoInfo o r with
        | .transportError => []
        | .ok ri => ⟨o, r, b, c, some ri⟩ :: effAux w rest
        | .httpStatusError => ⟨o, r, b, c, none⟩ :: effAux w rest

/-- Per-key update performed by the detection step. -/
def updE (v : Option Commit) (e : EffEntry) : Option Commit :=
  if mismatchB v e.newC.sha then some e.newC else v

/-- Sample commit with sha "s1". -/
def cA : Commit := ⟨"s1", "m1", "au", "d", "u"⟩

/-- Sample commit with sha "s2". -/
def cB : Commit := ⟨"s2", "m2", "au", "d", "u"⟩

/-- Sample metadata whose default branch is "main". -/
def riA : RepoInfo := ⟨"a", "b", "hu", "main"⟩

/-- Sample metadata whose default branch is "dev". -/
def riB : RepoInfo := ⟨"ab", "x", "hu2", "dev"⟩

/-- A world where every metadata request succeeds with `riA` and only the repository
a/b has a commit, on branch main. -/
def wSimple : World :=
  ⟨fun _ _ => .ok riA,
   fun o r br => if o = "a" && r = "b" && br = "main" then some cA else none⟩

/-- A world where every metadata request fails with a status error and the repository
acme/widgets has a commit on the literal ref "None". -/
def wNoMeta : World :=
  ⟨fun _ _ => .httpStatusError,
   fun o r br => if o = "acme" && r = "widgets" && br = "None" then some cA else none⟩

/-- A world in which two configured entries with slashes inside their owner/repo/branch
fields collide on the same state key while fetching different commits. -/
def wCollide : World :=
  ⟨fun o r =>
    if o = "a" && r = "b" then .ok riA
    else if o = "a/b" && r = "x" then .ok riB
    else .httpStatusError,
   fun o r br =>
    if o = "a" && r = "b" && br = "x/y" then some cA
    else if o = "a/b" && r = "x" && br = "y" then some cB
    else none⟩

/-- The colliding configuration: both entries have state key "a/b/x/y". -/
def cfgCollide : List RepoConfig :=
  [.dict (some "a") (some "b") (some "x/y"), .dict (some "a/b") (some "x") (some "y")]

/- ------------------------------------------------------------------ -/
/- Helper lemmas                                                       -/
/- ------------------------------------------------------------------ -/

theorem mismatchB_eq_true_iff (old : Option Commit) (sh : String) :
    mismatchB old sh = true ↔ (old = none ∨ ∃ c, old = some c ∧ c.sha ≠ sh) := by
  cases old <;> simp [mismatchB]

theorem mismatchB_eq_false_iff (old : Option Commit) (sh : String) :
    mismatchB old sh = false ↔ old.map Commit.sha = some sh := by
  cases old <;> simp [mismatchB]

theorem get_repository_info_ok_some (w : World) (o r : String) (ri : RepoInfo)
    (h : get_repository_info w o r = .ok (some ri)) : w.repoInfo o r = .ok ri := by
  cases hw : w.repoInfo o r <;> simp_all [get_repository_info]

theorem get_repository_info_ok_none (w : World) (o r : String)
    (h : get_repository_info w o r = .ok none) : w.repoInfo o r = .httpStatusError := by
  cases hw : w.repoInfo o r <;> simp_all [get_repository_info]

theorem sendLoop_eq_takeWhile (env : NotifEnv) (msg : String) (targets : List String) :
    sendLoop env msg targets =
      (targets.takeWhile (fun t => (pyInt t).isSome)).map
        (fun t => send_private_message env ((pyInt t).getD 0) msg) := by
  induction targets with
  | nil => rfl
  | cons tg rest ih =>
    cases h : pyInt tg with
    | none => simp [sendLoop, h, List.takeWhile_cons, Option.isSome]
    | some uid => simp [sendLoop, h, List.takeWhile_cons, Option.isSome, ih]

/- ------------------------------------------------------------------ -/
/- Claim theorems                                                      -/
/- ------------------------------------------------------------------ -/

/-- C1: for a configured repository processed in a cycle (it parsed, its commit fetch
returned a commit, and the metadata request did not raise), the change branch runs —
observable as the snapshot save — iff the stored snapshot under the key
owner/name/effectiveBranch is absent or its sha differs from the fetched sha, comparing
full sha strings. -/
theorem c1_change_detected_iff (w : World) (t : List String) (s : TrackedState)
    (rc : RepoConfig) (o r : String) (b : Option String) (newC : Commit)
    (riO : Option RepoInfo)
    (hp : parseRepoConfig rc = .ok (some (o, r, b)))
    (hf : (get_latest_commit w o r b).1 = some newC)
    (hm : get_repository_info w o r = .ok riO) :
    (processOne w t s rc).saves ≠ [] ↔
      (s (keyFor o r b riO) = none ∨
        ∃ old, s (keyFor o r b riO) = some old ∧ old.sha ≠ newC.sha) := by
  rw [← mismatchB_eq_true_iff]
  simp only [processOne, hp, hf, hm, detectAndUpdate]
  cases hch : mismatchB (s (keyFor o r b riO)) newC.sha <;> simp [hch]

/-- C1 witness: repository a/b in `wSimple` from an empty store detects a change. -/
theorem c1_witness :
    parseRepoConfig (.str "a/b") = .ok (some ("a", "b", none)) ∧
    (get_latest_commit wSimple "a" "b" none).1 = some cA ∧
    get_repository_info wSimple "a" "b" = .ok (some riA) ∧
    ((processOne wSimple ["1"] emptyState (.str "a/b")).saves ≠ [] ↔
      (emptyState (keyFor "a" "b" none (some riA)) = none ∨
        ∃ old, emptyState (keyFor "a" "b" none (some riA)) = some old ∧ old.sha ≠ cA.sha)) :=
  ⟨rfl, rfl, rfl,
    c1_change_detected_iff wSimple ["1"] emptyState (.str "a/b") "a" "b" none cA (some riA)
      rfl rfl rfl⟩

/-- C2: when a change is detected, the notifier is invoked exactly when the metadata
is available and the target list is non-empty; in every case the new snapshot is
written under the key and the document is saved. -/
theorem c2_notify_exactly_when (w : World) (t : List String) (s : TrackedState)
    (rc : RepoConfig) (o r : String) (b : Option String) (newC : Commit)
    (riO : Option RepoInfo)
    (hp : parseRepoConfig rc = .ok (some (o, r, b)))
    (hf : (get_latest_commit w o r b).1 = some newC)
    (hm : get_repository_info w o r = .ok riO)
    (hch : s (keyFor o r b riO) = none ∨
      ∃ old, s (keyFor o r b riO) = some old ∧ old.sha ≠ newC.sha) :
    (processOne w t s rc).st = update s (keyFor o r b riO) newC ∧
    (processOne w t s rc).saves = [update s (keyFor o r b riO) newC] ∧
    (∀ ri, riO = some ri → t ≠ [] →
      (processOne w t s rc).notifs = [⟨ri, newC, s (keyFor o r b riO), t⟩]) ∧
    (riO = none → (processOne w t s rc).notifs = []) ∧
    (t = [] → (processOne w t s rc).notifs = []) := by
  have hch2 : mismatchB (s (keyFor o r b riO)) newC.sha = true :=
    (mismatchB_eq_true_iff _ _).mpr hch
  have hst : (processOne w t s rc).st = update s (keyFor o r b riO) newC := by
    simp only [processOne, hp, hf, hm, detectAndUpdate, hch2, if_true]
  have hsv : (processOne w t s rc).saves = [update s (keyFor o r b riO) newC] := by
    simp only [processOne, hp, hf, hm, detectAndUpdate, hch2, if_true]
  refine ⟨hst, hsv, ?_, ?_, ?_⟩
  · intro ri hri htne
    subst hri
    cases t with
    | nil => exact absurd rfl htne
    | cons a as =>
      simp only [processOne, hp, hf, hm, detectAndUpdate, hch2, if_true]
      simp
  · intro h0
    subst h0
    have hw := get_repository_info_ok_none w o r hm
    simp only [processOne, hp, hf, hm, detectAndUpdate, hch2, if_true]
    simp [hw, riOptOf]
  · intro ht
    subst ht
    rcases riO with _ | ri
    · simp only [processOne, hp, hf, hm, detectAndUpdate, hch2, if_true]
      cases hw : w.repoInfo o r <;> simp [riOptOf, hw]
    · simp only [processOne, hp, hf, hm, detectAndUpdate, hch2, if_true]
      simp

/-- C2 witness: in `wSimple` with one target, the notifier is invoked with the
metadata, the new snapshot, the absent old snapshot and the target list. -/
theorem c2_witness :
    parseRepoConfig (.str "a/b") = .ok (some ("a", "b", none)) ∧
    (get_latest_commit wSimple "a" "b" none).1 = some cA ∧
    get_repository_info wSimple "a" "b" = .ok (some riA) ∧
    (emptyState (keyFor "a" "b" none (some riA)) = none ∨
      ∃ old, emptyState (keyFor "a" "b" none (some riA)) = some old ∧ old.sha ≠ cA.sha) ∧
    ((processOne wSimple ["1"] emptyState (.str "a/b")).st
        = update emptyState (keyFor "a" "b" none (some riA)) cA ∧
      (processOne wSimple ["1"] emptyState (.str "a/b")).saves
        = [update emptyState (keyFor "a" "b" none (some riA)) cA] ∧
      (∀ ri, some riA = some ri → ["1"] ≠ [] →
        (processOne wSimple ["1"] emptyState (.str "a/b")).notifs
          = [⟨ri, cA, emptyState (keyFor "a" "b" none (some riA)), ["1"]⟩]) ∧
      (some riA = none → (processOne wSimple ["1"] emptyState (.str "a/b")).notifs = []) ∧
      (["1"] = [] → (processOne wSimple ["1"] emptyState (.str "a/b")).notifs = [])) :=
  ⟨rfl, rfl, rfl, Or.inl rfl,
    c2_notify_exactly_when wSimple ["1"] emptyState (.str "a/b") "a" "b" none cA (some riA)
      rfl rfl rfl (Or.inl rfl)⟩

/-- C3 counterexample: with the configuration ["noslash", "a/b"], the first entry is a
string without a separator; the cycle aborts with ValueError before any network
request, so the valid repository a/b is never processed — although on its own it would
produce a notification in the same world. -/
theorem c3_counterexample :
    (runCycle wSimple ["1"] [.str "noslash", .str "a/b"] emptyState).aborted
        = some .valueError ∧
    (runCycle wSimple ["1"] [.str "noslash", .str "a/b"] emptyState).calls = [] ∧
    (runCycle wSimple ["1"] [.str "noslash", .str "a/b"] emptyState).saves = [] ∧
    (runCycle wSimple ["1"] [.str "a/b"] emptyState).notifs ≠ [] := by
  refine ⟨rfl, rfl, rfl, ?_⟩
  decide

/-- C3 amended: dict entries with a falsy owner or repo and entries of unrecognized
type are skipped, with every subsequent entry still processed; but a plain string
entry with no "/" raises an uncaught ValueError that ends the cycle, leaving the
state untouched and the remaining entries unprocessed. -/
theorem c3_amended (w : World) (t : List String) (s : TrackedState)
    (rest : List RepoConfig) :
    (∀ rc, parseRepoConfig rc = .ok none →
      runCycle w t (rc :: rest) s = runCycle w t rest s) ∧
    (∀ sv : String, splitFirst sv.data = none →
      runCycle w t (RepoConfig.str sv :: rest) s = ⟨s, [], [], [], some .valueError⟩) := by
  constructor
  · intro rc hrc
    simp [runCycle, processOne, hrc]
  · intro sv hsv
    simp [runCycle, processOne, parseRepoConfig, hsv]

/-- C3 witness: an entry of unrecognized type is skipped with the rest processed, and
the string "noslash" aborts the cycle. -/
theorem c3_witness :
    (parseRepoConfig .other = .ok none ∧
      runCycle wSimple ["1"] (.other :: [.str "a/b"]) emptyState
        = runCycle wSimple ["1"] [.str "a/b"] emptyState) ∧
    (splitFirst "noslash".data = none ∧
      runCycle wSimple ["1"] (RepoConfig.str "noslash" :: [.str "a/b"]) emptyState
        = ⟨emptyState, [], [], [], some .valueError⟩) :=
  ⟨⟨rfl, (c3_amended wSimple ["1"] emptyState [.str "a/b"]).1 .other rfl⟩,
   ⟨rfl, (c3_amended wSimple ["1"] emptyState [.str "a/b"]).2 "noslash" rfl⟩⟩

/-- C4 counterexample: in `wNoMeta` the metadata fetch for acme/widgets fails (status
error), yet `get_latest_commit` with the branch omitted does not fail with that error:
it issues the commit request at the placeholder ref "None" (Python interpolation of
None) and returns that request's commit. -/
theorem c4_counterexample :
    (get_latest_commit wNoMeta "acme" "widgets" none).1 = some cA ∧
    (get_latest_commit wNoMeta "acme" "widgets" none).2 =
      [NetCall.repoInfo "acme" "widgets", NetCall.commits "acme" "widgets" "None"] :=
  ⟨rfl, rfl⟩

/-- C4 amended: with the branch omitted, the client first fetches metadata and uses
its default branch on success; when the metadata request returns a status error the
client only logs and proceeds to request the commit at the interpolated placeholder
ref "None", returning that result; when the metadata request fails at transport level
the operation returns None without issuing any commit request (the error handler
itself raises and the outer handler swallows it). -/
theorem c4_amended (w : World) (o r : String) :
    (∀ ri, w.repoInfo o r = .ok ri →
      get_latest_commit w o r none =
        (w.commitAt o r ri.default_branch,
          [NetCall.repoInfo o r, NetCall.commits o r ri.default_branch])) ∧
    (w.repoInfo o r = .httpStatusError →
      get_latest_commit w o r none =
        (w.commitAt o r "None", [NetCall.repoInfo o r, NetCall.commits o r "None"])) ∧
    (w.repoInfo o r = .transportError →
      get_latest_commit w o r none = (none, [NetCall.repoInfo o r])) := by
  refine ⟨?_, ?_, ?_⟩
  · intro ri h
    simp [get_latest_commit, pyTruthy, pyStr, h]
  · intro h
    simp [get_latest_commit, pyTruthy, pyStr, h]
  · intro h
    simp [get_latest_commit, pyTruthy, pyStr, h]

/-- C4 witness: the three metadata outcomes exercised on concrete worlds. -/
theorem c4_witness :
    (wNoMeta.repoInfo "acme" "widgets" = .httpStatusError ∧
      get_latest_commit wNoMeta "acme" "widgets" none =
        (wNoMeta.commitAt "acme" "widgets" "None",
          [NetCall.repoInfo "acme" "widgets", NetCall.commits "acme" "widgets" "None"])) ∧
    (wSimple.repoInfo "a" "b" = .ok riA ∧
      get_latest_commit wSimple "a" "b" none =
        (wSimple.commitAt "a" "b" riA.default_branch,
          [NetCall.repoInfo "a" "b", NetCall.commits "a" "b" riA.default_branch])) :=
  ⟨⟨rfl, (c4_amended wNoMeta "acme" "widgets").2.1 rfl⟩,
   ⟨rfl, (c4_amended wSimple "a" "b").1 riA rfl⟩⟩

/-- C5: for an entry with no explicit branch whose commit fetch succeeded, the state
key is owner/repo/defaultBranch whenever the metadata request succeeds, and
owner/repo/main exactly when it fails with a status error. -/
theorem c5_branch_resolution (w : World) (t : List String) (s : TrackedState)
    (rc : RepoConfig) (o r : String) (b : Option String) (newC : Commit)
    (hp : parseRepoConfig rc = .ok (some (o, r, b)))
    (hb : pyTruthy b = false)
    (hf : (get_latest_commit w o r b).1 = some newC) :
    (∀ ri, w.repoInfo o r = .ok ri →
      (processOne w t s rc).st =
        if mismatchB (s (o ++ "/" ++ r ++ "/" ++ ri.default_branch)) newC.sha
        then update s (o ++ "/" ++ r ++ "/" ++ ri.default_branch) newC else s) ∧
    (w.repoInfo o r = .httpStatusError →
      (processOne w t s rc).st =
        if mismatchB (s (o ++ "/" ++ r ++ "/" ++ "main")) newC.sha
        then update s (o ++ "/" ++ r ++ "/" ++ "main") newC else s) := by
  constructor
  · intro ri hw
    have hm : get_repository_info w o r = .ok (some ri) := by
      simp [get_repository_info, hw]
    simp only [processOne, hp, hf, hm, detectAndUpdate, keyFor, hb]
    cases hmb : mismatchB (s (o ++ "/" ++ r ++ "/" ++ ri.default_branch)) newC.sha <;>
      simp [hmb]
  · intro hw
    have hm : get_repository_info w o r = .ok none := by
      simp [get_repository_info, hw]
    simp only [processOne, hp, hf, hm, detectAndUpdate, keyFor, hb]
    cases hmb : mismatchB (s (o ++ "/" ++ r ++ "/" ++ "main")) newC.sha <;>
      simp [hmb]

/-- C5 witness: the successful-metadata case at wSimple (default branch main). -/
theorem c5_witness :
    parseRepoConfig (.str "a/b") = .ok (some ("a", "b", none)) ∧
    pyTruthy none = false ∧
    (get_latest_commit wSimple "a" "b" none).1 = some cA ∧
    wSimple.repoInfo "a" "b" = .ok riA ∧
    (processOne wSimple ["1"] emptyState (.str "a/b")).st =
      (if mismatchB (emptyState ("a" ++ "/" ++ "b" ++ "/" ++ riA.default_branch)) cA.sha
        then update emptyState ("a" ++ "/" ++ "b" ++ "/" ++ riA.default_branch) cA
        else emptyState) :=
  ⟨rfl, rfl, rfl, rfl,
    (c5_branch_resolution wSimple ["1"] emptyState (.str "a/b") "a" "b" none cA
      rfl rfl rfl).1 riA rfl⟩

/-- C6: when a change is detected for an entry, the updated document is saved before
any later entry is processed: the cycle's save list starts with the updated document
and the remaining entries run from that updated state, with no assumption about the
notification (sent, skipped or failed). -/
theorem c6_persist_before_next (w : World) (t : List String) (s : TrackedState)
    (rc : RepoConfig) (rest : List RepoConfig) (o r : String) (b : Option String)
    (newC : Commit) (riO : Option RepoInfo)
    (hp : parseRepoConfig rc = .ok (some (o, r, b)))
    (hf : (get_latest_commit w o r b).1 = some newC)
    (hm : get_repository_info w o r = .ok riO)
    (hch : s (keyFor o r b riO) = none ∨
      ∃ old, s (keyFor o r b riO) = some old ∧ old.sha ≠ newC.sha) :
    (runCycle w t (rc :: rest) s).saves =
      update s (keyFor o r b riO) newC
        :: (runCycle w t rest (update s (keyFor o r b riO) newC)).saves ∧
    (runCycle w t (rc :: rest) s).st =
      (runCycle w t rest (update s (keyFor o r b riO) newC)).st ∧
    (runCycle w t (rc :: rest) s).notifs =
      (processOne w t s rc).notifs
        ++ (runCycle w t rest (update s (keyFor o r b riO) newC)).notifs := by
  have hch2 : mismatchB (s (keyFor o r b riO)) newC.sha = true :=
    (mismatchB_eq_true_iff _ _).mpr hch
  have hab : (processOne w t s rc).aborted = none := by
    simp only [processOne, hp, hf, hm, detectAndUpdate, hch2, if_true]
  have hst : (processOne w t s rc).st = update s (keyFor o r b riO) newC := by
    simp only [processOne, hp, hf, hm, detectAndUpdate, hch2, if_true]
  have hsv : (processOne w t s rc).saves = [update s (keyFor o r b riO) newC] := by
    simp only [processOne, hp, hf, hm, detectAndUpdate, hch2, if_true]
  simp only [runCycle, hab, hst, hsv]
  simp

/-- C6 witness: concrete instance in `wSimple`. -/
theorem c6_witness :
    parseRepoConfig (.str "a/b") = .ok (some ("a", "b", none)) ∧
    (get_latest_commit wSimple "a" "b" none).1 = some cA ∧
    get_repository_info wSimple "a" "b" = .ok (some riA) ∧
    (emptyState (keyFor "a" "b" none (some riA)) = none ∨
      ∃ old, emptyState (keyFor "a" "b" none (some riA)) = some old ∧ old.sha ≠ cA.sha) ∧
    (runCycle wSimple ["1"] [.str "a/b"] emptyState).saves =
      update emptyState (keyFor "a" "b" none (some riA)) cA
        :: (runCycle wSimple ["1"] []
            (update emptyState (keyFor "a" "b" none (some riA)) cA)).saves :=
  ⟨rfl, rfl, rfl, Or.inl rfl,
    (c6_persist_before_next wSimple ["1"] emptyState (.str "a/b") [] "a" "b" none cA
      (some riA) rfl rfl rfl (Or.inl rfl)).1⟩

/-- C8: a cycle over an empty (or absent, which yields the same empty list) repository
configuration changes nothing: no network request, no notification, no save, and the
state is returned untouched. -/
theorem c8_empty_config_noop (w : World) (t : List String) (s : TrackedState) :
    check_repositories w ⟨[], t⟩ s = ⟨s, [], [], [], none⟩ := rfl

/-- C9: the formatted message is exactly the template containing the repository
display name and URL, the new commit's 7-character short sha, author, timestamp,
the first 50 characters of the commit message followed by an ellipsis marker iff the
message is longer than 50 characters, the commit URL, and — exactly when an old
snapshot existed — the old commit's short sha; and the message excerpt is at most 50
characters and a prefix of the full commit message. -/
theorem c9_message_content (ri : RepoInfo) (nc : Commit) (oc : Option Commit) :
    (format_commit_message ri nc oc =
      "🔔 GitHub仓库更新通知\n\n"
      ++ ("📁 仓库: " ++ (ri.owner_login ++ "/" ++ ri.name) ++ "\n")
      ++ ("🔗 链接: " ++ ri.html_url ++ "\n\n")
      ++ "✨ 新Commit:\n"
      ++ ("📝 SHA: " ++ pySlice nc.sha 7 ++ "\n")
      ++ ("👤 作者: " ++ nc.author ++ "\n")
      ++ ("📅 时间: " ++ nc.date ++ "\n")
      ++ ("💬 信息: " ++ pySlice nc.message 50
          ++ (if 50 < pyLen nc.message then "..." else "") ++ "\n")
      ++ ("🔗 链接: " ++ nc.url ++ "\n\n")
      ++ (match oc with
          | some old => "📜 之前Commit: " ++ pySlice old.sha 7 ++ "\n"
          | none => "")) ∧
    (pySlice nc.message 50).data.length ≤ 50 ∧
    (pySlice nc.message 50).data <+: nc.message.data := by
  refine ⟨?_, ?_, ?_⟩
  · cases oc <;>
      · apply String.ext
        simp [format_commit_message, String.data_append, List.append_assoc]
  · simp [pySlice, List.length_take]
  · exact List.take_prefix 50 nc.message.data

/-- C10: `send_commit_notification` is a total function (all exceptions are handled
inside): it attempts delivery, in order, to exactly the longest prefix of targets
whose identifiers convert to integers — a failed delivery inside
`_send_private_message` is recorded and does not stop the loop, while the first
identifier that `int()` rejects makes the enclosing handler swallow the error and
abandon all remaining targets. -/
theorem c10_send_totality (env : NotifEnv) (ri : RepoInfo) (nc : Commit)
    (oc : Option Commit) (targets : List String) :
    send_commit_notification env ri nc oc targets =
      (targets.takeWhile (fun t => (pyInt t).isSome)).map
        (fun t => send_private_message env ((pyInt t).getD 0)
          (format_commit_message ri nc oc)) :=
  sendLoop_eq_takeWhile env (format_commit_message ri nc oc) targets

/- ------------------------------------------------------------------ -/
/- Lemmas toward the idempotence claim                                 -/
/- ------------------------------------------------------------------ -/

theorem mismatchB_true_iff_map (v : Option Commit) (sh : String) :
    mismatchB v sh = true ↔ v.map Commit.sha ≠ some sh := by
  cases v <;> simp [mismatchB]

theorem updE_of_eq (v : Option Commit) (e : EffEntry)
    (h : v.map Commit.sha = some e.newC.sha) : updE v e = v := by
  have hb : mismatchB v e.newC.sha = false := (mismatchB_eq_false_iff _ _).mpr h
  simp [updE, hb]

theorem updE_of_ne (v : Option Commit) (e : EffEntry)
    (h : v.map Commit.sha ≠ some e.newC.sha) : updE v e = some e.newC := by
  have hb : mismatchB v e.newC.sha = true := (mismatchB_true_iff_map _ _).mpr h
  simp [updE, hb]

theorem updE_sha (v : Option Commit) (e : EffEntry) :
    (updE v e).map Commit.sha = some e.newC.sha := by
  by_cases h : v.map Commit.sha = some e.newC.sha
  · rw [updE_of_eq v e h]; exact h
  · rw [updE_of_ne v e h]; rfl

theorem foldl_updE_append_sha (cs : List EffEntry) (e : EffEntry) (v : Option Commit) :
    (List.foldl updE v (cs ++ [e])).map Commit.sha = some e.newC.sha := by
  rw [List.foldl_append]
  exact updE_sha _ e

theorem foldl_updE_congr_start :
    ∀ (cs : List EffEntry) (u v : Option Commit),
      u.map Commit.sha = v.map Commit.sha →
      (List.foldl updE u cs = List.foldl updE v cs ∨
        (List.foldl updE u cs = u ∧ List.foldl updE v cs = v)) := by
  intro cs
  induction cs with
  | nil => intro u v _; exact Or.inr ⟨rfl, rfl⟩
  | cons c tl ih =>
    intro u v h
    by_cases hu : u.map Commit.sha = some c.newC.sha
    · have hv : v.map Commit.sha = some c.newC.sha := h ▸ hu
      rw [List.foldl_cons, List.foldl_cons, updE_of_eq u c hu, updE_of_eq v c hv]
      exact ih u v h
    · have hv : v.map Commit.sha ≠ some c.newC.sha := h ▸ hu
      rw [List.foldl_cons, List.foldl_cons, updE_of_ne u c hu, updE_of_ne v c hv]
      exact Or.inl rfl

theorem foldl_updE_idem :
    ∀ (cs : List EffEntry) (v : Option Commit),
      List.foldl updE (List.foldl updE v cs) cs = List.foldl updE v cs := by
  intro cs
  induction cs with
  | nil => intro v; rfl
  | cons c tl ih =>
    intro v
    rw [List.foldl_cons, List.foldl_cons]
    by_cases hw : (List.foldl updE (updE v c) tl).map Commit.sha = some c.newC.sha
    · rw [updE_of_eq _ c hw]
      exact ih (updE v c)
    · rw [updE_of_ne _ c hw]
      have hv1 : (some c.newC).map Commit.sha = (updE v c).map Commit.sha := by
        rw [updE_sha]; rfl
      rcases foldl_updE_congr_start tl (some c.newC) (updE v c) hv1 with heq | ⟨h1, h2⟩
      · exact heq
      · exact absurd (by rw [h2]; exact updE_sha v c) hw

theorem effStep_st (w : World) (t : List String) (s : TrackedState) (e : EffEntry)
    (k : String) :
    (effStep w t s e).st k = if k = keyOf e then updE (s (keyOf e)) e else s k := by
  simp only [effStep, detectAndUpdate, keyOf, updE, update]
  cases hmb : mismatchB (s (keyFor e.owner e.repo e.branch e.ri)) e.newC.sha <;>
    by_cases hk : k = keyFor e.owner e.repo e.branch e.ri <;>
      simp [hmb, hk, update]

theorem effStep_nochange (w : World) (t : List String) (s : TrackedState) (e : EffEntry)
    (h : mismatchB (s (keyOf e)) e.newC.sha = false) :
    effStep w t s e = ⟨s, [], [], [], none⟩ := by
  simp only [keyOf] at h
  simp [effStep, detectAndUpdate, h]

theorem effStep_notifs_ri_none (w : World) (t : List String) (s : TrackedState)
    (e : EffEntry) (h0 : e.ri = none)
    (hw : riOptOf (w.repoInfo e.owner e.repo) = none) :
    (effStep w t s e).notifs = [] := by
  simp only [effStep, detectAndUpdate]
  cases hmb : mismatchB (s (keyFor e.owner e.repo e.branch e.ri)) e.newC.sha <;>
    simp [hmb, h0, hw]

theorem runEff_cons (w : World) (t : List String) (e : EffEntry) (tl : List EffEntry)
    (s : TrackedState) :
    runEff w t (e :: tl) s =
      ⟨(runEff w t tl (effStep w t s e).st).st,
        (effStep w t s e).saves ++ (runEff w t tl (effStep w t s e).st).saves,
        (effStep w t s e).notifs ++ (runEff w t tl (effStep w t s e).st).notifs⟩ := rfl

theorem runEff_st_localize (w : World) (t : List String) :
    ∀ (es : List EffEntry) (s : TrackedState) (k : String),
      (runEff w t es s).st k =
        List.foldl updE (s k) (es.filter (fun e2 => keyOf e2 == k)) := by
  intro es
  induction es with
  | nil => intro s k; rfl
  | cons e tl ih =>
    intro s k
    rw [runEff_cons]
    by_cases hk : keyOf e = k
    · have hfil : (e :: tl).filter (fun e2 => keyOf e2 == k)
          = e :: tl.filter (fun e2 => keyOf e2 == k) := by
        simp [List.filter_cons, hk]
      rw [hfil, List.foldl_cons]
      have := ih (effStep w t s e).st k
      rw [this, effStep_st, if_pos hk.symm, hk]
    · have hfil : (e :: tl).filter (fun e2 => keyOf e2 == k)
          = tl.filter (fun e2 => keyOf e2 == k) := by
        simp [List.filter_cons, hk]
      rw [hfil]
      have := ih (effStep w t s e).st k
      rw [this, effStep_st, if_neg (fun hc => hk hc.symm)]

theorem runEff_notifs_nil (w : World) (t : List String) :
    ∀ (es : List EffEntry) (s : TrackedState),
      (∀ e1 ∈ es, ∀ e2 ∈ es, keyOf e1 = keyOf e2 →
        e1.newC.sha = e2.newC.sha ∨ (e1.ri = none ∧ e2.ri = none)) →
      (∀ e ∈ es, e.ri = none → riOptOf (w.repoInfo e.owner e.repo) = none) →
      (∀ e ∈ es, mismatchB (s (keyOf e)) e.newC.sha = true → e.ri = none) →
      (runEff w t es s).notifs = [] := by
  intro es
  induction es with
  | nil => intro s _ _ _; rfl
  | cons e tl ih =>
    intro s hp hc hinv
    rw [runEff_cons]
    cases hmb : mismatchB (s (keyOf e)) e.newC.sha with
    | false =>
      rw [effStep_nochange w t s e hmb]
      simp only [List.nil_append]
      exact ih s
        (fun e1 h1 e2 h2 => hp e1 (List.mem_cons_of_mem _ h1) e2 (List.mem_cons_of_mem _ h2))
        (fun e1 h1 => hc e1 (List.mem_cons_of_mem _ h1))
        (fun e1 h1 => hinv e1 (List.mem_cons_of_mem _ h1))
    | true =>
      have h0 : e.ri = none := hinv e (List.mem_cons_self e tl) hmb
      have hn := effStep_notifs_ri_none w t s e h0 (hc e (List.mem_cons_self e tl) h0)
      rw [hn, List.nil_append]
      apply ih (effStep w t s e).st
      · exact fun e1 h1 e2 h2 =>
          hp e1 (List.mem_cons_of_mem _ h1) e2 (List.mem_cons_of_mem _ h2)
      · exact fun e1 h1 => hc e1 (List.mem_cons_of_mem _ h1)
      · intro e2 he2 hm2
        by_cases hk : keyOf e2 = keyOf e
        · have hst := effStep_st w t s e (keyOf e2)
          rw [if_pos hk] at hst
          rw [hst] at hm2
          have hne : e.newC.sha ≠ e2.newC.sha := by
            intro hEq
            have hx := (mismatchB_true_iff_map _ _).mp hm2
            rw [updE_sha, hEq] at hx
            exact hx rfl
          rcases hp e (List.mem_cons_self e tl) e2 (List.mem_cons_of_mem _ he2) hk.symm with
            hEq | hnn
          · exact absurd hEq hne
          · exact hnn.2
        · have hst := effStep_st w t s e (keyOf e2)
          rw [if_neg hk] at hst
          rw [hst] at hm2
          exact hinv e2 (List.mem_cons_of_mem _ he2) hm2

theorem effAux_coh (w : World) :
    ∀ (l : List RepoConfig), ∀ e ∈ effAux w l,
      e.ri = riOptOf (w.repoInfo e.owner e.repo) ∧
      (get_latest_commit w e.owner e.repo e.branch).1 = some e.newC := by
  intro l
  induction l with
  | nil => intro e he; exact absurd he (List.not_mem_nil e)
  | cons rc tl ih =>
    intro e he
    cases hp : parseRepoConfig rc with
    | error err =>
      simp only [effAux, hp] at he
      exact absurd he (List.not_mem_nil e)
    | ok po =>
      cases po with
      | none =>
        simp only [effAux, hp] at he
        exact ih e he
      | some trip =>
        obtain ⟨o, r, b⟩ := trip
        cases hf : (get_latest_commit w o r b).1 with
        | none =>
          simp only [effAux, hp, hf] at he
          exact ih e he
        | some c =>
          cases hw : w.repoInfo o r with
          | transportError =>
            simp only [effAux, hp, hf, hw] at he
            exact absurd he (List.not_mem_nil e)
          | ok ri =>
            simp only [effAux, hp, hf, hw] at he
            rcases List.mem_cons.mp he with hEq | hmem
            · subst hEq
              exact ⟨by rw [hw]; rfl, hf⟩
            · exact ih e hmem
          | httpStatusError =>
            simp only [effAux, hp, hf, hw] at he
            rcases List.mem_cons.mp he with hEq | hmem
            · subst hEq
              exact ⟨by rw [hw]; rfl, hf⟩
            · exact ih e hmem

theorem pyStr_of_truthy (b : Option String) (h : pyTruthy b = true) :
    pyStr b = b.getD "" := by
  cases b with
  | none => simp [pyTruthy] at h
  | some s => rfl

theorem string_append_left_cancel (a b c : String) (h : a ++ b = a ++ c) : b = c := by
  have h2 : (a ++ b).data = (a ++ c).data := congrArg String.data h
  simp only [String.data_append] at h2
  exact String.ext (List.append_cancel_left h2)

theorem keyFor_inj (o r p1 p2 : String)
    (h : o ++ "/" ++ r ++ "/" ++ p1 = o ++ "/" ++ r ++ "/" ++ p2) : p1 = p2 :=
  string_append_left_cancel (o ++ "/" ++ r ++ "/") p1 p2 h

theorem glc_eq_commitAt_keyPart (w : World) (o r : String) (b : Option String)
    (ri : RepoInfo) (hw : w.repoInfo o r = .ok ri) :
    (get_latest_commit w o r b).1 =
      w.commitAt o r (if pyTruthy b then b.getD "" else ri.default_branch) := by
  cases ht : pyTruthy b with
  | true => simp [get_latest_commit, ht, pyStr_of_truthy b ht]
  | false => simp [get_latest_commit, ht, hw]

theorem effEntry_sha_eq (w : World) (e1 e2 : EffEntry)
    (h1r : e1.ri = riOptOf (w.repoInfo e1.owner e1.repo))
    (h1f : (get_latest_commit w e1.owner e1.repo e1.branch).1 = some e1.newC)
    (h2r : e2.ri = riOptOf (w.repoInfo e2.owner e2.repo))
    (h2f : (get_latest_commit w e2.owner e2.repo e2.branch).1 = some e2.newC)
    (hk : keyOf e1 = keyOf e2) (ho : e1.owner = e2.owner) (hr : e1.repo = e2.repo) :
    e1.newC.sha = e2.newC.sha ∨ (e1.ri = none ∧ e2.ri = none) := by
  have hww : w.repoInfo e2.owner e2.repo = w.repoInfo e1.owner e1.repo := by rw [ho, hr]
  cases hw : w.repoInfo e1.owner e1.repo with
  | httpStatusError =>
    refine Or.inr ⟨?_, ?_⟩
    · rw [h1r, hw]; rfl
    · rw [h2r, hww, hw]; rfl
  | transportError =>
    refine Or.inr ⟨?_, ?_⟩
    · rw [h1r, hw]; rfl
    · rw [h2r, hww, hw]; rfl
  | ok ri =>
    left
    have h1ri : e1.ri = some ri := by rw [h1r, hw]; rfl
    have h2ri : e2.ri = some ri := by rw [h2r, hww, hw]; rfl
    have hk2 : (if pyTruthy e1.branch then e1.branch.getD "" else ri.default_branch)
        = (if pyTruthy e2.branch then e2.branch.getD "" else ri.default_branch) := by
      apply keyFor_inj e1.owner e1.repo
      have hkk := hk
      simp only [keyOf, keyFor, h1ri, h2ri] at hkk
      rw [← ho, ← hr] at hkk
      exact hkk
    have hc1 := glc_eq_commitAt_keyPart w e1.owner e1.repo e1.branch ri hw
    have hc2 := glc_eq_commitAt_keyPart w e2.owner e2.repo e2.branch ri (hww.trans hw)
    rw [h1f] at hc1
    rw [h2f] at hc2
    rw [← ho, ← hr, ← hk2, ← hc1] at hc2
    exact (congrArg Commit.sha (Option.some.inj hc2)).symm

theorem runCycle_eq_runEff (w : World) (t : List String) :
    ∀ (l : List RepoConfig) (s : TrackedState),
      (runCycle w t l s).st = (runEff w t (effAux w l) s).st ∧
      (runCycle w t l s).saves = (runEff w t (effAux w l) s).saves ∧
      (runCycle w t l s).notifs = (runEff w t (effAux w l) s).notifs := by
  intro l
  induction l with
  | nil => intro s; exact ⟨rfl, rfl, rfl⟩
  | cons rc tl ih =>
    intro s
    cases hp : parseRepoConfig rc with
    | error err =>
      refine ⟨?_, ?_, ?_⟩ <;> simp [runCycle, processOne, hp, effAux, runEff]
    | ok po =>
      cases po with
      | none =>
        have h := ih s
        refine ⟨?_, ?_, ?_⟩ <;>
          simp [runCycle, processOne, hp, effAux, h.1, h.2.1, h.2.2]
      | some trip =>
        obtain ⟨o, r, b⟩ := trip
        cases hf : (get_latest_commit w o r b).1 with
        | none =>
          have h := ih s
          refine ⟨?_, ?_, ?_⟩ <;>
            simp [runCycle, processOne, hp, hf, effAux, h.1, h.2.1, h.2.2]
        | some c =>
          cases hw : w.repoInfo o r with
          | transportError =>
            have hm : get_repository_info w o r = .error .unboundLocalError := by
              simp [get_repository_info, hw]
            refine ⟨?_, ?_, ?_⟩ <;>
              simp [runCycle, processOne, hp, hf, hm, effAux, hw, runEff]
          | ok ri =>
            have hm : get_repository_info w o r = .ok (some ri) := by
              simp [get_repository_info, hw]
            have h := ih (detectAndUpdate w t o r b c (some ri) s).st
            refine ⟨?_, ?_, ?_⟩ <;>
              simp [runCycle, processOne, hp, hf, hm, effAux, hw, runEff, effStep,
                h.1, h.2.1, h.2.2]
          | httpStatusError =>
            have hm : get_repository_info w o r = .ok none := by
              simp [get_repository_info, hw]
            have h := ih (detectAndUpdate w t o r b c none s).st
            refine ⟨?_, ?_, ?_⟩ <;>
              simp [runCycle, processOne, hp, hf, hm, effAux, hw, runEff, effStep,
                h.1, h.2.1, h.2.2]

theorem processOne_last (w : World) (t : List String) (s : TrackedState) (rc : RepoConfig) :
    (processOne w t s rc).saves.getLast?.getD s = (processOne w t s rc).st := by
  cases hp : parseRepoConfig rc with
  | error err => simp [processOne, hp]
  | ok po =>
    cases po with
    | none => simp [processOne, hp]
    | some trip =>
      obtain ⟨o, r, b⟩ := trip
      cases hf : (get_latest_commit w o r b).1 with
      | none => simp [processOne, hp, hf]
      | some c =>
        cases hm : get_repository_info w o r with
        | error err => simp [processOne, hp, hf, hm]
        | ok riO =>
          simp only [processOne, hp, hf, hm, detectAndUpdate]
          cases hmb : mismatchB (s (keyFor o r b riO)) c.sha <;> simp [hmb]

theorem runCycle_last (w : World) (t : List String) :
    ∀ (l : List RepoConfig) (s : TrackedState),
      ((runCycle w t l s).saves).getLast?.getD s = (runCycle w t l s).st := by
  intro l
  induction l with
  | nil => intro s; rfl
  | cons rc tl ih =>
    intro s
    cases hab : (processOne w t s rc).aborted with
    | some e =>
      simp only [runCycle, hab]
      exact processOne_last w t s rc
    | none =>
      simp only [runCycle, hab]
      cases hsv : (runCycle w t tl (processOne w t s rc).st).saves with
      | nil =>
        have h2 := ih (processOne w t s rc).st
        rw [hsv] at h2
        simp only [List.getLast?_nil, Option.getD_none] at h2
        rw [List.append_nil, ← h2]
        exact processOne_last w t s rc
      | cons x xs =>
        have h2 := ih (processOne w t s rc).st
        rw [hsv] at h2
        have hne : x :: xs ≠ [] := by simp
        obtain ⟨y, hy⟩ := Option.isSome_iff_exists.mp (List.getLast?_isSome.mpr hne)
        rw [List.getLast?_append_of_ne_nil _ hne, hy]
        rw [hy] at h2
        simpa using h2

/-- C7 counterexample: in `wCollide` with `cfgCollide`, whose two entries both use the
state key "a/b/x/y" but fetch different remote targets (their owner/repo/branch values
contain "/"), running the cycle a second time over the unchanged world still emits
notifications: the claim fails as stated. -/
theorem c7_counterexample :
    (runCycle wCollide ["1"] cfgCollide
      ((runCycle wCollide ["1"] cfgCollide emptyState).st)).notifs ≠ [] := by
  decide

/-- C7 amended: provided any two entries that reach the sha comparison and share a
state key refer to the same owner and repository (this can only fail when configured
owner, repo or branch values themselves contain a "/"), a second run over an unchanged
world emits zero notifications and leaves the tracked mapping — and hence the last
persisted document — exactly as the first run wrote it. -/
theorem c7_idempotent_second_run (w : World) (t : List String) (l : List RepoConfig)
    (s0 : TrackedState)
    (H : ∀ e1 ∈ effAux w l, ∀ e2 ∈ effAux w l, keyOf e1 = keyOf e2 →
      e1.owner = e2.owner ∧ e1.repo = e2.repo) :
    (runCycle w t l ((runCycle w t l s0).st)).notifs = [] ∧
    (runCycle w t l ((runCycle w t l s0).st)).st = (runCycle w t l s0).st ∧
    ((runCycle w t l ((runCycle w t l s0).st)).saves).getLast?.getD
      ((runCycle w t l s0).st) = (runCycle w t l s0).st := by
  have hcoh := effAux_coh w l
  have hp : ∀ e1 ∈ effAux w l, ∀ e2 ∈ effAux w l, keyOf e1 = keyOf e2 →
      e1.newC.sha = e2.newC.sha ∨ (e1.ri = none ∧ e2.ri = none) := by
    intro e1 h1 e2 h2 hk
    obtain ⟨ho, hr⟩ := H e1 h1 e2 h2 hk
    exact effEntry_sha_eq w e1 e2 (hcoh e1 h1).1 (hcoh e1 h1).2
      (hcoh e2 h2).1 (hcoh e2 h2).2 hk ho hr
  have hc : ∀ e ∈ effAux w l, e.ri = none →
      riOptOf (w.repoInfo e.owner e.repo) = none := by
    intro e he h0
    rw [← h0]
    exact ((hcoh e he).1).symm
  have hEQ := runCycle_eq_runEff w t l
  have hs1 : (runCycle w t l s0).st = (runEff w t (effAux w l) s0).st := (hEQ s0).1
  have hinv : ∀ e ∈ effAux w l,
      mismatchB ((runEff w t (effAux w l) s0).st (keyOf e)) e.newC.sha = true →
        e.ri = none := by
    intro e he hm
    rw [runEff_st_localize w t (effAux w l) s0 (keyOf e)] at hm
    have heF : e ∈ (effAux w l).filter (fun e2 => keyOf e2 == keyOf e) :=
      List.mem_filter.mpr ⟨he, by simp⟩
    have hFne : (effAux w l).filter (fun e2 => keyOf e2 == keyOf e) ≠ [] :=
      List.ne_nil_of_mem heF
    have hsha : (List.foldl updE (s0 (keyOf e))
          ((effAux w l).filter (fun e2 => keyOf e2 == keyOf e))).map Commit.sha
        = some (((effAux w l).filter
            (fun e2 => keyOf e2 == keyOf e)).getLast hFne).newC.sha := by
      conv_lhs => rw [← List.dropLast_append_getLast hFne]
      exact foldl_updE_append_sha _ _ _
    have hlast_mem := List.getLast_mem hFne
    have hlast_es : ((effAux w l).filter (fun e2 => keyOf e2 == keyOf e)).getLast hFne
        ∈ effAux w l := (List.mem_filter.mp hlast_mem).1
    have hlast_key : keyOf (((effAux w l).filter
        (fun e2 => keyOf e2 == keyOf e)).getLast hFne) = keyOf e := by
      have := (List.mem_filter.mp hlast_mem).2
      simpa using this
    have hne2 : (((effAux w l).filter
        (fun e2 => keyOf e2 == keyOf e)).getLast hFne).newC.sha ≠ e.newC.sha := by
      intro hEq
      have hx := (mismatchB_true_iff_map _ _).mp hm
      rw [hsha, hEq] at hx
      exact hx rfl
    rcases hp _ hlast_es e he hlast_key with hEq | hnn
    · exact absurd hEq hne2
    · exact hnn.2
  have hnot : (runEff w t (effAux w l) ((runEff w t (effAux w l) s0).st)).notifs = [] :=
    runEff_notifs_nil w t (effAux w l) _ hp hc hinv
  have hstEq : (runEff w t (effAux w l) ((runEff w t (effAux w l) s0).st)).st
      = (runEff w t (effAux w l) s0).st := by
    funext k
    rw [runEff_st_localize, runEff_st_localize]
    exact foldl_updE_idem _ _
  have hSecond : (runCycle w t l ((runCycle w t l s0).st)).st = (runCycle w t l s0).st := by
    calc (runCycle w t l ((runCycle w t l s0).st)).st
        = (runEff w t (effAux w l) ((runCycle w t l s0).st)).st := (hEQ _).1
      _ = (runEff w t (effAux w l) ((runEff w t (effAux w l) s0).st)).st := by rw [hs1]
      _ = (runEff w t (effAux w l) s0).st := hstEq
      _ = (runCycle w t l s0).st := hs1.symm
  refine ⟨?_, hSecond, ?_⟩
  · calc (runCycle w t l ((runCycle w t l s0).st)).notifs
        = (runEff w t (effAux w l) ((runCycle w t l s0).st)).notifs := (hEQ _).2.2
      _ = (runEff w t (effAux w l) ((runEff w t (effAux w l) s0).st)).notifs := by rw [hs1]
      _ = [] := hnot
  · rw [runCycle_last w t l ((runCycle w t l s0).st)]
    exact hSecond

/-- C7 witness: single well-formed entry a/b in `wSimple`. -/
theorem c7_witness :
    (∀ e1 ∈ effAux wSimple [RepoConfig.str "a/b"],
      ∀ e2 ∈ effAux wSimple [RepoConfig.str "a/b"],
        keyOf e1 = keyOf e2 → e1.owner = e2.owner ∧ e1.repo = e2.repo) ∧
    ((runCycle wSimple ["1"] [RepoConfig.str "a/b"]
        ((runCycle wSimple ["1"] [RepoConfig.str "a/b"] emptyState).st)).notifs = [] ∧
      (runCycle wSimple ["1"] [RepoConfig.str "a/b"]
          ((runCycle wSimple ["1"] [RepoConfig.str "a/b"] emptyState).st)).st
        = (runCycle wSimple ["1"] [RepoConfig.str "a/b"] emptyState).st ∧
      ((runCycle wSimple ["1"] [RepoConfig.str "a/b"]
          ((runCycle wSimple ["1"] [RepoConfig.str "a/b"] emptyState).st)).saves).getLast?.getD
        ((runCycle wSimple ["1"] [RepoConfig.str "a/b"] emptyState).st)
        = (runCycle wSimple ["1"] [RepoConfig.str "a/b"] emptyState).st) :=
  ⟨by decide,
    c7_idempotent_second_run wSimple ["1"] [RepoConfig.str "a/b"] emptyState (by decide)⟩
